import Mathlib

/-!
Verification of the employee-directory application (streamlit_app.py).

This file is a shallow embedding of the program: the SQLite record store
(table `employees` with an AUTOINCREMENT primary key), the photo-path
construction of the Add flow, the Public-View search filter, the QR
generation pipeline and the Admin-Portal Add/Remove flows, together with
theorems about the specified behaviours.
-/

/-- Fixed admin password from the configuration section of the program. -/
def ADMIN_PASSWORD : String := "admin"

/-- Fixed database file name from the configuration section. -/
def DB_FILE : String := "employee_db.sqlite"

/-- Fixed image folder from the configuration section. -/
def IMAGE_FOLDER : String := "employee_photos"

/-- One row of the `employees` table. -/
structure Employee where
  id : Nat
  name : String
  email : String
  phone : String
  domain : String
  linkedin : String
  photo_path : String
  deriving Repr, DecidableEq

/-- Persistent state of the record store: the rows of the `employees`
table in storage order, together with the AUTOINCREMENT counter (the next
id to assign; SQLite AUTOINCREMENT never reuses a value). -/
structure Store where
  nextId : Nat
  rows : List Employee
  deriving Repr, DecidableEq

/-- Model of `init_db` on a fresh database file: empty table, ids assigned
from 1 upward. -/
def init_db : Store := { nextId := 1, rows := [] }

/-- Model of `add_employee`: INSERT INTO employees (name, email, phone,
domain, linkedin, photo_path) VALUES (?, ?, ?, ?, ?, ?); the id is assigned
by AUTOINCREMENT. -/
def add_employee (s : Store) (name email phone domain linkedin photo_path : String) :
    Store :=
  { nextId := s.nextId + 1
    rows := s.rows ++ [{ id := s.nextId, name := name, email := email, phone := phone,
                         domain := domain, linkedin := linkedin,
                         photo_path := photo_path }] }

/-- Store effect of `DELETE FROM employees WHERE id=?`. -/
def delete_row (s : Store) (empId : Nat) : Store :=
  { s with rows := s.rows.filter (fun e => e.id != empId) }

/-- Model of `get_all_employees`: SELECT * FROM employees, rows in storage
(insertion) order. -/
def get_all_employees (s : Store) : List Employee := s.rows

/-- Oracle modelling the file system as `delete_employee` sees it:
`pathExists` models `os.path.exists`, and `removeResult` models the outcome
of `os.remove` (`none` = success, `some e` = it raises with message `e`). -/
structure FSOracle where
  pathExists : String → Bool
  removeResult : String → Option String

/-- Model of `os.remove`: may raise. -/
def os_remove (fs : FSOracle) (p : String) : Except String Unit :=
  match fs.removeResult p with
  | none => Except.ok ()
  | some e => Except.error e

/-- Model of `SELECT photo_path FROM employees WHERE id=?` followed by
`fetchone()`: the photo path of the first row with that id, if any. -/
def fetch_photo_path (s : Store) (empId : Nat) : Option String :=
  (s.rows.find? (fun e => e.id == empId)).map Employee.photo_path

/-- Model of `delete_employee`: look up the row's photo path; if the row
exists, the path is truthy and the file exists, best-effort delete the file
(the `try/except` turns a failing `os.remove` into a warning message);
then DELETE the row.  The `Except` result type records whether an exception
escapes the function. -/
def delete_employee (fs : FSOracle) (s : Store) (empId : Nat) :
    Except String (Store × List String) :=
  let warnings :=
    match fetch_photo_path s empId with
    | some p =>
      if p != "" && fs.pathExists p then
        match os_remove fs p with
        | Except.ok _ => []
        | Except.error e => ["Could not delete image file: " ++ e]
      else []
    | none => []
  Except.ok (delete_row s empId, warnings)

/-- Ids of the rows currently in the store. -/
def idsOf (s : Store) : List Nat := s.rows.map Employee.id

/-- One admin write operation on the store. -/
inductive Op where
  | insert (name email phone domain linkedin photo_path : String)
  | delete (empId : Nat)
  deriving Repr, DecidableEq

/-- Apply one operation (store effect only). -/
def applyOp (s : Store) : Op → Store
  | Op.insert n e p d l ph => add_employee s n e p d l ph
  | Op.delete i => delete_row s i

/-- Run a sequence of operations left to right. -/
def runOps (s : Store) : List Op → Store
  | [] => s
  | op :: rest => runOps (applyOp s op) rest

/-- The ids handed out by AUTOINCREMENT along a run, in order: each insert
contributes the id its new row receives. -/
def assignedIds (s : Store) : List Op → List Nat
  | [] => []
  | Op.insert n e p d l ph :: rest =>
    s.nextId :: assignedIds (applyOp s (Op.insert n e p d l ph)) rest
  | Op.delete i :: rest => assignedIds (applyOp s (Op.delete i)) rest

/-- Python regex metacharacters.  `pandas.Series.str.contains` treats its
argument as a regular expression by default (`regex=True`), so a query
containing one of these is not matched as a literal substring. -/
def METACHARS : List Char :=
  ['.', '^', '$', '*', '+', '?', '\x7b', '\x7d', '[', ']', '\\', '|', '(', ')']

/-- One step of the case-insensitive regex matcher, for the fragment built
from literal characters and the wildcard `.` (the fragment the filter
claims quantify over): does the pattern match a prefix of the text? -/
def matchHere : List Char → List Char → Bool
  | [], _ => true
  | _ :: _, [] => false
  | p :: ps, c :: cs => (p == '.' || p.toLower == c.toLower) && matchHere ps cs

/-- Model of `re.search` with `re.IGNORECASE` for that fragment: try the
pattern at every start position of the text. -/
def reSearch (pat : List Char) : List Char → Bool
  | [] => matchHere pat []
  | c :: cs => matchHere pat (c :: cs) || reSearch pat cs

/-- Model of `series.str.contains(search, case=False, na=False)` on one
cell (a non-null string, so `na` is irrelevant). -/
def str_contains (search s : String) : Bool := reSearch search.toList s.toList

/-- The Public-View filter: `if search:` skips filtering for the empty
(falsy) query; otherwise keep the rows whose name or domain matches the
query under `str.contains(..., case=False, na=False)`. -/
def filter_employees (search : String) (rows : List Employee) : List Employee :=
  if search == "" then rows
  else rows.filter (fun e => str_contains search e.name || str_contains search e.domain)

/-- Spec-side predicate (stated from the specification, to be compared with
the filter the code implements): the query occurs in `s` as a
case-insensitive substring. -/
def ci_substring (q s : String) : Bool :=
  decide (q.toList.map Char.toLower <:+: s.toList.map Char.toLower)

/-- An uploaded photo: the uploaded file name and its bytes. -/
structure Photo where
  name : String
  buffer : List Nat
  deriving Repr, DecidableEq

/-- Model of Python `str.split(".")` on a character list: split at every
dot, keeping empty parts (so the result is never empty). -/
def splitOnDot : List Char → List (List Char)
  | [] => [[]]
  | c :: cs =>
    if c = '.' then [] :: splitOnDot cs
    else
      match splitOnDot cs with
      | [] => [[c]]
      | p :: ps => (c :: p) :: ps

/-- Model of `photo.name.split(".")[-1]`: the last dot-separated component
of the uploaded file name. -/
def file_ext (fname : String) : String :=
  String.mk ((splitOnDot fname.toList).getLastD [])

/-- Characters Python `str.rstrip()` strips (the ASCII whitespace ones). -/
def pyIsSpace (c : Char) : Bool :=
  c == ' ' || c == '\t' || c == '\n' || c == '\r' || c == '\x0b' || c == '\x0c'

/-- Model of Python `str.rstrip()`. -/
def pyRstrip (s : String) : String :=
  String.mk ((s.toList.reverse.dropWhile pyIsSpace).reverse)

/-- Model of the sanitization line of the Add flow:
`"".join([c for c in name if c.isalpha() or c.isdigit()]).rstrip()`.
Only the name is sanitized. -/
def safe_name (name : String) : String :=
  pyRstrip (String.mk (name.toList.filter (fun c => c.isAlpha || c.isDigit)))

/-- The file-name part `f"{safe_name}_{phone}.{file_ext}"` of the photo
save path; phone and extension are embedded verbatim. -/
def photo_filename (name phone ext : String) : String :=
  safe_name name ++ "_" ++ phone ++ "." ++ ext

/-- The stem of that file name (everything before the extension dot). -/
def photo_stem (name phone : String) : String := safe_name name ++ "_" ++ phone

/-- Model of `os.path.join(IMAGE_FOLDER, filename)`: the file name built by
the flow never starts with a separator, so join is concatenation. -/
def save_path (name phone ext : String) : String :=
  IMAGE_FOLDER ++ "/" ++ photo_filename name phone ext

/-- A file name stays inside the image folder when it has no path
separator and is not a dot-directory reference. -/
def fname_inside (fname : String) : Bool :=
  fname.toList.all (fun c => c != '/') && fname != ".." && fname != "."

/-- The safety property the spec claims of the stem: only alphanumeric
characters plus the fixed `_` separator. -/
def stem_alnum_sep (s : String) : Bool :=
  s.toList.all (fun c => c.isAlpha || c.isDigit || c == '_')

/-- Result of one submission of the Add form. -/
inductive AddOutcome where
  | accepted (store : Store) (savedPath : String)
  | rejected (errorMsg : String)
  deriving Repr, DecidableEq

/-- Whether an Add submission was accepted. -/
def AddOutcome.isAccepted : AddOutcome → Bool
  | AddOutcome.accepted _ _ => true
  | AddOutcome.rejected _ => false

/-- Oracle modelling the outcome of `open(save_path, "wb")` followed by
the buffer write in the Add flow: `none` = the bytes are written, `some e`
= the call raises with message `e` (for instance because the path points
into a subdirectory that does not exist).  The Add flow has no try/except,
so such an exception escapes before the insert runs. -/
structure WriteOracle where
  writeResult : String → Option String

/-- A write oracle on which every write succeeds. -/
def writeOk : WriteOracle := { writeResult := fun _ => none }

/-- A write oracle modelling the program's default environment: only the
flat image folder is created (streamlit_app.py lines 16-17), so a write
whose file-name part contains a path separator raises. -/
def writeFlatFolder : WriteOracle :=
  { writeResult := fun p =>
      if (p.toList.drop (IMAGE_FOLDER.length + 1)).contains '/' then
        some "No such file or directory"
      else none }

/-- The Add flow of the Admin Portal on one submission: the required-field
check `if name and email and photo:` is Python truthiness (non-empty
string, upload present); when it passes, the photo is written to
`save_path` — unguarded, so a raising `open` aborts the flow before the
insert — and only then is the row inserted via `add_employee` with the
submitted values verbatim. -/
def add_flow (w : WriteOracle) (s : Store) (name email phone domain linkedin : String)
    (photo : Option Photo) : Except String AddOutcome :=
  if name != "" && email != "" && photo.isSome then
    let ext := file_ext ((photo.getD { name := "", buffer := [] }).name)
    let path := save_path name phone ext
    match w.writeResult path with
    | some e => Except.error e
    | none =>
      Except.ok
        (AddOutcome.accepted (add_employee s name email phone domain linkedin path) path)
  else
    Except.ok (AddOutcome.rejected "Name, Email, and Photo are required.")

/-- Python dict insertion: overwrite the value when the key is already
present (keeping its position), otherwise append the new key. -/
def dict_insert (k : String) (v : Nat) : List (String × Nat) → List (String × Nat)
  | [] => [(k, v)]
  | (k0, v0) :: rest =>
    if k0 == k then (k0, v) :: rest else (k0, v0) :: dict_insert k v rest

/-- The Remove-flow selector label of a row: `f"{row['name']} | {row['domain']}"`. -/
def emp_label (e : Employee) : String := e.name ++ " | " ++ e.domain

/-- Model of the `emp_options` dict comprehension over `df.iterrows()`:
fold the rows in storage order into a Python dict from label to id. -/
def emp_options (rows : List Employee) : List (String × Nat) :=
  rows.foldl (fun d e => dict_insert (emp_label e) e.id d) []

/-- Byte-mode character capacity at error-correction level L by QR version
(model of the sizing table the qrcode library consults for `fit=True`;
exact for the first versions, a coarse continuation beyond). -/
def qrCapacityL (v : Nat) : Nat :=
  match v with
  | 0 => 0
  | 1 => 17
  | 2 => 32
  | 3 => 53
  | 4 => 78
  | n + 5 => 106 + 30 * n

/-- Model of `qr.make(fit=True)` starting from `version=1`: the smallest
version whose byte-mode capacity holds the payload, capped at 40. -/
def qrFitVersion (len : Nat) : Nat :=
  match (List.range 40).find? (fun i => len ≤ qrCapacityL (i + 1)) with
  | some i => i + 1
  | none => 40

/-- Big-endian bits of `x` in `w` positions. -/
def natBits (w x : Nat) : List Bool :=
  (List.range w).map (fun i => x / 2 ^ (w - 1 - i) % 2 == 1)

/-- Model of the byte-mode bit stream built by `qr.add_data` and `make`:
mode indicator 0100, 8-bit character count, the UTF-8 payload bytes, the
4-bit terminator, padding to a byte boundary, then the alternating pad
bytes 0xEC / 0x11 up to capacity. -/
def qrDataBits (data : String) : List Bool :=
  let bytes := data.toUTF8.toList.map (fun b => b.toNat)
  let v := qrFitVersion bytes.length
  let cap := qrCapacityL v
  let core := natBits 4 4 ++ natBits 8 bytes.length
    ++ bytes.flatMap (natBits 8) ++ natBits 4 0
  let padded := core ++ List.replicate ((8 - core.length % 8) % 8) false
  padded ++ (List.range (cap - bytes.length)).flatMap
    (fun i => natBits 8 (if i % 2 == 0 then 236 else 17))

/-- Whether module (r, c) of an n-by-n QR matrix lies in one of the three
fixed finder-pattern corners (with their separators). -/
def inFinder (n r c : Nat) : Bool :=
  (r < 8 && c < 8) || (r < 8 && n ≤ c + 8) || (n ≤ r + 8 && c < 8)

/-- The bullseye appearance of a finder-region module. -/
def finderDark (n r c : Nat) : Bool :=
  let fr := if n ≤ r + 8 then r + 8 - n else r
  let fc := if n ≤ c + 8 then c + 8 - n else c
  ((fr == 0 || fr == 6) && fc ≤ 6) || ((fc == 0 || fc == 6) && fr ≤ 6)
    || (2 ≤ fr && fr ≤ 4 && 2 ≤ fc && fc ≤ 4)

/-- The module matrix of the code: finder patterns plus the data bits laid
out by position with the checkerboard mask (the placement order of the
real library is simplified; every step is a pure function of the data). -/
def qrModules (data : String) : List (List Bool) :=
  let bits := qrDataBits data
  let n := 17 + 4 * qrFitVersion data.toUTF8.size
  (List.range n).map (fun r =>
    (List.range n).map (fun c =>
      if inFinder n r c then finderDark n r c
      else xor (bits.getD ((r * n + c) % (bits.length + 1)) false)
               ((r + c) % 2 == 0)))

/-- Model of `qr.make_image(fill_color="black", back_color="white")` with
`box_size=10` and `border=4`: scale every module to a 10-by-10 pixel block
and add a 4-module quiet zone; `true` is a black pixel. -/
def make_image (modules : List (List Bool)) : List (List Bool) :=
  let box := 10
  let border := 4
  let w := (match modules with | [] => 0 | r :: _ => r.length) + 2 * border
  let blank := List.replicate (w * box) false
  let rowPix := fun (row : List Bool) =>
    List.replicate (border * box) false
      ++ (row.map (List.replicate box)).flatten
      ++ List.replicate (border * box) false
  List.replicate (border * box) blank
    ++ (modules.map (fun row => List.replicate box (rowPix row))).flatten
    ++ List.replicate (border * box) blank

/-- Model of `generate_qr`: build
QRCode(version=1, error_correction=ERROR_CORRECT_L, box_size=10, border=4),
add the data, `make(fit=True)`, and render the raster image.  Every stage
is a pure function of the payload text: the program passes the library no
randomness, clock or ambient state. -/
def generate_qr (data : String) : List (List Bool) :=
  make_image (qrModules data)

/-! ## Basic facts about the store operations -/

/-- Compact constructor for an employee row. -/
def mkEmp (i : Nat) (n e p d l ph : String) : Employee :=
  { id := i, name := n, email := e, phone := p, domain := d, linkedin := l,
    photo_path := ph }

/-- A one-row sample store used by the concrete witnesses. -/
def sampleRow : Employee := mkEmp 1 "n" "e" "p" "d" "l" "ph"

/-- A one-row sample store used by the concrete witnesses. -/
def sampleStore : Store := { nextId := 2, rows := [sampleRow] }

/-- A file-system oracle on which every removal fails. -/
def fsFailing : FSOracle :=
  { pathExists := fun _ => true, removeResult := fun _ => some "disk full" }

/-- A file-system oracle on which every removal succeeds. -/
def fsOk : FSOracle := { pathExists := fun _ => true, removeResult := fun _ => none }

/-- Well-formedness of a reachable store: every live id is below the
AUTOINCREMENT counter, and the rows are in strictly increasing id order. -/
def WFStore (s : Store) : Prop :=
  (∀ i ∈ idsOf s, i < s.nextId) ∧ (idsOf s).Pairwise (· < ·)

/-- A store with two rows sharing the selector label "a | d", used by the
Remove-flow witness. -/
def dupStore : Store :=
  { nextId := 3, rows := [mkEmp 1 "a" "e1" "p1" "d" "l1" "ph1",
                          mkEmp 2 "a" "e2" "p2" "d" "l2" "ph2"] }

theorem idsOf_add (s : Store) (n e p d l ph : String) :
    idsOf (add_employee s n e p d l ph) = idsOf s ++ [s.nextId] := by
  simp [idsOf, add_employee]

theorem not_mem_idsOf_delete (s : Store) (i : Nat) :
    i ∉ idsOf (delete_row s i) := by
  intro h
  simp only [idsOf, delete_row, List.mem_map, List.mem_filter] at h
  obtain ⟨e, ⟨_, hne⟩, hid⟩ := h
  simp [hid] at hne

theorem mem_idsOf_delete (s : Store) (j i : Nat) (h : i ∈ idsOf (delete_row s j)) :
    i ∈ idsOf s := by
  simp only [idsOf, delete_row, List.mem_map, List.mem_filter] at h ⊢
  obtain ⟨e, ⟨he, _⟩, hid⟩ := h
  exact ⟨e, he, hid⟩

theorem length_filter_ne (l : List Employee) (i : Nat)
    (hnodup : (l.map Employee.id).Nodup) (hmem : i ∈ l.map Employee.id) :
    (l.filter (fun e => e.id != i)).length + 1 = l.length := by
  induction l with
  | nil => simp at hmem
  | cons e rest ih =>
    simp only [List.map_cons, List.nodup_cons, List.mem_map] at hnodup
    have hmem' : i = e.id ∨ ∃ a ∈ rest, a.id = i := by simpa using hmem
    rcases hmem' with h | ⟨a, ha, hai⟩
    · have hfe : (e.id != i) = false := by simp [h]
      have hrest : rest.filter (fun x => x.id != i) = rest := by
        apply List.filter_eq_self.mpr
        intro b hb
        simp only [bne_iff_ne, ne_eq, decide_eq_true_eq]
        intro hbi
        exact hnodup.1 ⟨b, hb, hbi.trans h⟩
      simp [List.filter_cons, hfe, hrest]
    · have hne : e.id ≠ i := by
        intro hei
        exact hnodup.1 ⟨a, ha, hai.trans hei.symm⟩
      have hfe : (e.id != i) = true := by simp [hne]
      have := ih hnodup.2 (List.mem_map.mpr ⟨a, ha, hai⟩)
      simp only [List.filter_cons, hfe, if_true, List.length_cons]
      omega

theorem runOps_not_mem (ops : List Op) (s : Store) (i : Nat)
    (hlt : i < s.nextId) (hnm : i ∉ idsOf s) :
    i < (runOps s ops).nextId ∧ i ∉ idsOf (runOps s ops) := by
  induction ops generalizing s with
  | nil => exact ⟨hlt, hnm⟩
  | cons op rest ih =>
    cases op with
    | insert n e p d l ph =>
      refine ih (add_employee s n e p d l ph) ?_ ?_
      · simp only [add_employee]
        omega
      · rw [idsOf_add]
        intro hm
        rcases List.mem_append.mp hm with h | h
        · exact hnm h
        · simp at h
          omega
    | delete j =>
      refine ih (delete_row s j) hlt ?_
      intro hm
      exact hnm (mem_idsOf_delete s j i hm)

theorem wf_init : WFStore init_db := by
  constructor <;> simp [init_db, idsOf]

theorem wf_applyOp (s : Store) (op : Op) (h : WFStore s) : WFStore (applyOp s op) := by
  obtain ⟨hb, hp⟩ := h
  cases op with
  | insert n e p d l ph =>
    simp only [applyOp]
    constructor
    · intro i hi
      rw [idsOf_add] at hi
      simp only [add_employee]
      rcases List.mem_append.mp hi with h | h
      · have := hb i h
        omega
      · simp at h
        omega
    · rw [idsOf_add]
      refine List.pairwise_append.mpr ⟨hp, by simp, ?_⟩
      intro a ha b hb'
      simp only [List.mem_singleton] at hb'
      subst hb'
      exact hb a ha
  | delete j =>
    simp only [applyOp]
    constructor
    · intro i hi
      exact hb i (mem_idsOf_delete s j i hi)
    · have hsub : List.Sublist (idsOf (delete_row s j)) (idsOf s) :=
        (List.filter_sublist s.rows).map Employee.id
      exact List.Pairwise.sublist hsub hp

theorem wf_runOps (ops : List Op) (s : Store) (h : WFStore s) : WFStore (runOps s ops) := by
  induction ops generalizing s with
  | nil => exact h
  | cons op rest ih => exact ih (applyOp s op) (wf_applyOp s op h)

theorem assignedIds_lb (ops : List Op) (s : Store) :
    ∀ i ∈ assignedIds s ops, s.nextId ≤ i := by
  induction ops generalizing s with
  | nil => simp [assignedIds]
  | cons op rest ih =>
    cases op with
    | insert n e p d l ph =>
      intro i hi
      rcases List.mem_cons.mp hi with h | h
      · omega
      · have := ih (add_employee s n e p d l ph) i h
        simp only [add_employee] at this
        omega
    | delete j =>
      intro i hi
      exact ih (delete_row s j) i hi

theorem assignedIds_pairwise (ops : List Op) (s : Store) :
    (assignedIds s ops).Pairwise (· < ·) := by
  induction ops generalizing s with
  | nil => simp [assignedIds]
  | cons op rest ih =>
    cases op with
    | insert n e p d l ph =>
      refine List.Pairwise.cons ?_ (ih (add_employee s n e p d l ph))
      intro j hj
      have := assignedIds_lb rest (add_employee s n e p d l ph) j hj
      simp only [add_employee] at this
      omega
    | delete j => exact ih (delete_row s j)

/-! ## Claim theorems -/

/-- C1 counterexample: the photo write precedes the insert and is
unguarded: in the program's default environment (only the flat image
folder exists) a submission with name, email and photo all present but
phone "x/y" raises at open() and aborts before add_employee, so such a
submission is neither accepted nor inserted. -/
theorem add_flow_write_failure_counterexample :
    add_flow writeFlatFolder init_db "A" "a@x" "x/y" "" ""
        (some { name := "p.jpg", buffer := [] })
      = Except.error "No such file or directory"
    ∧ (("A" : String) != "" && ("a@x" : String) != ""
        && (some { name := "p.jpg", buffer := [] } : Option Photo).isSome) = true := by
  exact ⟨rfl, by decide⟩

/-- C1 amended: a submission of the Add flow with name, email and photo
all present passes the required-field check and, provided the photo write
succeeds, is accepted: the record count grows by exactly one and the
inserted row's name, email, phone, domain, linkedin and photo_path equal
the submitted values (the photo_path being the save path handed to the
insert). -/
theorem add_flow_valid_accepted (w : WriteOracle) (s : Store)
    (name email phone domain linkedin : String) (ph : Photo)
    (hname : name ≠ "") (hemail : email ≠ "")
    (hw : w.writeResult (save_path name phone (file_ext ph.name)) = none) :
    ∃ path st, add_flow w s name email phone domain linkedin (some ph)
        = Except.ok (AddOutcome.accepted st path)
      ∧ st.rows.length = s.rows.length + 1
      ∧ st.rows = s.rows ++ [mkEmp s.nextId name email phone domain linkedin path] := by
  refine ⟨save_path name phone (file_ext ph.name),
    add_employee s name email phone domain linkedin
      (save_path name phone (file_ext ph.name)), ?_, ?_, rfl⟩
  · simp [add_flow, hname, hemail, hw]
  · simp [add_employee]

/-- C1 witness at a concrete submission whose derived file name the
default environment can write. -/
theorem add_flow_valid_accepted_witness :
    writeFlatFolder.writeResult
        (save_path "Ada Lovelace" "555-0100" (file_ext "face.jpg")) = none
    ∧ ∃ path st, add_flow writeFlatFolder init_db "Ada Lovelace" "ada@x.com" "555-0100"
        "Engineering" "" (some { name := "face.jpg", buffer := [1, 2] })
        = Except.ok (AddOutcome.accepted st path)
      ∧ st.rows.length = init_db.rows.length + 1
      ∧ st.rows = init_db.rows
          ++ [mkEmp init_db.nextId "Ada Lovelace" "ada@x.com" "555-0100" "Engineering" "" path] :=
  ⟨by decide,
    add_flow_valid_accepted writeFlatFolder init_db "Ada Lovelace" "ada@x.com" "555-0100"
      "Engineering" "" { name := "face.jpg", buffer := [1, 2] }
      (by decide) (by decide) (by decide)⟩

/-- C3: deleting an id that is not in the store leaves the store unchanged:
no exception is raised, no warning is emitted, no row is removed. -/
theorem delete_absent_noop (fs : FSOracle) (s : Store) (empId : Nat)
    (hnm : empId ∉ idsOf s) :
    delete_employee fs s empId = Except.ok (s, []) := by
  have hfind : s.rows.find? (fun e => e.id == empId) = none := by
    apply List.find?_eq_none.mpr
    intro e he h
    exact hnm (by
      simp only [idsOf, List.mem_map]
      exact ⟨e, he, by simpa using h⟩)
  have hrows : s.rows.filter (fun e => e.id != empId) = s.rows := by
    apply List.filter_eq_self.mpr
    intro e he
    simp only [bne_iff_ne, ne_eq, decide_eq_true_eq]
    intro h
    exact hnm (by
      simp only [idsOf, List.mem_map]
      exact ⟨e, he, h⟩)
  simp [delete_employee, fetch_photo_path, hfind, delete_row, hrows]

/-- C3 witness: deleting id 7 from a store that holds only id 1. -/
theorem delete_absent_noop_witness :
    7 ∉ idsOf sampleStore
    ∧ delete_employee fsOk sampleStore 7 = Except.ok (sampleStore, []) :=
  ⟨by decide, delete_absent_noop fsOk sampleStore 7 (by decide)⟩

/-- C6: when deleting the referenced photo file raises, the exception is
caught by the try/except and surfaced as a warning message, and the
database row is still removed. -/
theorem delete_file_failure_caught (fs : FSOracle) (s : Store) (empId : Nat)
    (p err : String)
    (hfetch : fetch_photo_path s empId = some p) (hp : p ≠ "")
    (hex : fs.pathExists p = true) (hfail : fs.removeResult p = some err) :
    delete_employee fs s empId
        = Except.ok (delete_row s empId, ["Could not delete image file: " ++ err])
      ∧ empId ∉ idsOf (delete_row s empId) := by
  refine ⟨?_, not_mem_idsOf_delete s empId⟩
  simp [delete_employee, hfetch, hp, hex, os_remove, hfail]

/-- C6 witness: a one-row store whose photo file exists but cannot be
removed. -/
theorem delete_file_failure_caught_witness :
    fetch_photo_path sampleStore 1 = some "ph"
    ∧ ("ph" : String) ≠ ""
    ∧ (delete_employee fsFailing sampleStore 1
          = Except.ok (delete_row sampleStore 1,
              ["Could not delete image file: " ++ "disk full"])
        ∧ 1 ∉ idsOf (delete_row sampleStore 1)) :=
  ⟨by decide, by decide,
    delete_file_failure_caught fsFailing sampleStore 1 "ph" "disk full"
      (by decide) (by decide) rfl rfl⟩

/-- C7: QR encoding is deterministic: the whole pipeline from payload text
to raster image is a pure function of the text, so encoding the same
payload twice yields bit-identical images. -/
theorem generate_qr_deterministic (data : String) :
    generate_qr data = generate_qr data := rfl

/-- C10 counterexample: a submission whose name and email are whitespace
passes the required-field check, but with phone "x/y" the unguarded write
raises before the insert in the default environment, so the submission is
not stored: verbatim storage does not follow from the check alone. -/
theorem whitespace_accept_crash_counterexample :
    ((" " : String) != "" && ("\t" : String) != ""
        && (some { name := "p.jpg", buffer := [] } : Option Photo).isSome) = true
    ∧ add_flow writeFlatFolder init_db " " "\t" "x/y" "" ""
        (some { name := "p.jpg", buffer := [] })
      = Except.error "No such file or directory" := by
  exact ⟨by decide, rfl⟩

/-- C10 amended: the required-field check of the Add flow is exactly
Python truthiness of name, email and photo (non-empty string, upload
present), with no trimming or format validation — so a whitespace-only
name or email passes it — and when the check passes and the photo write
succeeds, the submission is accepted with its fields stored verbatim in
the inserted row. -/
theorem add_flow_truthiness_check (w : WriteOracle) (s : Store)
    (name email phone domain linkedin : String) (photo : Option Photo) :
    (add_flow w s name email phone domain linkedin photo
          = Except.ok (AddOutcome.rejected "Name, Email, and Photo are required.")
        ↔ (name != "" && email != "" && photo.isSome) = false)
      ∧ (∀ ph : Photo, photo = some ph →
          (name != "" && email != "" && photo.isSome) = true →
          w.writeResult (save_path name phone (file_ext ph.name)) = none →
          ∃ path st, add_flow w s name email phone domain linkedin photo
              = Except.ok (AddOutcome.accepted st path)
            ∧ st.rows.getLast?
                = some (mkEmp s.nextId name email phone domain linkedin path)) := by
  constructor
  · by_cases h : (name != "" && email != "" && photo.isSome) = true
    · rcases hw : w.writeResult (save_path name phone
          (file_ext ((photo.getD { name := "", buffer := [] }).name))) with _ | e <;>
        simp [add_flow, h, hw]
    · have hf : (name != "" && email != "" && photo.isSome) = false := by
        simpa using h
      simp [add_flow, hf]
  · intro ph hph h hw
    subst hph
    simp only [Bool.and_eq_true, bne_iff_ne, ne_eq] at h
    obtain ⟨⟨hname, hemail⟩, _⟩ := h
    refine ⟨save_path name phone (file_ext ph.name),
      add_employee s name email phone domain linkedin
        (save_path name phone (file_ext ph.name)), ?_, ?_⟩
    · simp [add_flow, hname, hemail, hw]
    · simp [add_employee, mkEmp]

/-- C2: deleting an id present in a well-formed store returns normally,
decreases the record count by exactly one, and the id appears in no later
listing, whatever sequence of inserts and deletes follows. -/
theorem delete_present_removes (fs : FSOracle) (s : Store) (empId : Nat)
    (hnodup : (idsOf s).Nodup) (hmem : empId ∈ idsOf s) (hlt : empId < s.nextId) :
    ∃ w, delete_employee fs s empId = Except.ok (delete_row s empId, w)
      ∧ (delete_row s empId).rows.length + 1 = s.rows.length
      ∧ ∀ ops : List Op,
          empId ∉ (get_all_employees (runOps (delete_row s empId) ops)).map Employee.id := by
  refine ⟨_, rfl, ?_, ?_⟩
  · exact length_filter_ne s.rows empId hnodup hmem
  · intro ops
    exact (runOps_not_mem ops (delete_row s empId) empId hlt
      (not_mem_idsOf_delete s empId)).2

/-- C2 witness: deleting id 1 from the one-row sample store. -/
theorem delete_present_removes_witness :
    (idsOf sampleStore).Nodup ∧ 1 ∈ idsOf sampleStore ∧ 1 < sampleStore.nextId
    ∧ ∃ w, delete_employee fsOk sampleStore 1 = Except.ok (delete_row sampleStore 1, w)
      ∧ (delete_row sampleStore 1).rows.length + 1 = sampleStore.rows.length
      ∧ ∀ ops : List Op,
          1 ∉ (get_all_employees (runOps (delete_row sampleStore 1) ops)).map Employee.id :=
  ⟨by decide, by decide, by decide,
    delete_present_removes fsOk sampleStore 1 (by decide) (by decide) (by decide)⟩

/-- C8: ids are system-assigned by AUTOINCREMENT: along every sequence of
inserts and deletes from the fresh database, the assigned ids are strictly
increasing (so each insert gets an id strictly greater than every id ever
assigned before, and a deleted id is never reused), and the live rows
always carry pairwise distinct ids. -/
theorem autoincrement_monotone (ops : List Op) :
    (assignedIds init_db ops).Pairwise (· < ·)
      ∧ (idsOf (runOps init_db ops)).Nodup := by
  refine ⟨assignedIds_pairwise ops init_db, ?_⟩
  exact (wf_runOps ops init_db wf_init).2.imp (fun h => Nat.ne_of_lt h)

/-! ## The Remove-flow selector dictionary -/

theorem lookup_cons_eq (label k0 : String) (v0 : Nat) (rest : List (String × Nat)) :
    List.lookup label ((k0, v0) :: rest)
      = if label = k0 then some v0 else List.lookup label rest := by
  by_cases h : label = k0
  · rw [if_pos h, List.lookup_cons, show (label == k0) = true from beq_iff_eq.mpr h]
  · rw [if_neg h, List.lookup_cons, show (label == k0) = false from
      beq_eq_false_iff_ne.mpr h]

theorem dict_insert_cons (k : String) (v : Nat) (k0 : String) (v0 : Nat)
    (rest : List (String × Nat)) :
    dict_insert k v ((k0, v0) :: rest)
      = if k0 = k then (k0, v) :: rest else (k0, v0) :: dict_insert k v rest := by
  by_cases h : k0 = k
  · simp [dict_insert, h]
  · simp [dict_insert, h]

theorem lookup_dict_insert (label k : String) (v : Nat) (d : List (String × Nat)) :
    List.lookup label (dict_insert k v d)
      = if label = k then some v else List.lookup label d := by
  induction d with
  | nil =>
    show List.lookup label [(k, v)] = _
    rw [lookup_cons_eq]
  | cons kv rest ih =>
    obtain ⟨k0, v0⟩ := kv
    rw [dict_insert_cons]
    by_cases hk : k0 = k
    · subst hk
      rw [if_pos rfl, lookup_cons_eq, lookup_cons_eq]
      by_cases h : label = k0 <;> simp [h]
    · rw [if_neg hk, lookup_cons_eq, lookup_cons_eq, ih]
      by_cases h : label = k0
      · subst h
        rw [if_pos rfl, if_pos rfl, if_neg hk]
      · rw [if_neg h, if_neg h]

theorem lookup_foldl_options (rows : List Employee) (label : String)
    (d : List (String × Nat)) :
    List.lookup label (rows.foldl (fun acc e => dict_insert (emp_label e) e.id acc) d)
      = Option.or ((rows.filter (fun e => emp_label e == label)).getLast?.map Employee.id)
          (List.lookup label d) := by
  induction rows using List.reverseRecOn with
  | nil => simp [Option.or]
  | append_singleton l a ih =>
    rw [List.foldl_append, List.foldl_cons, List.foldl_nil, lookup_dict_insert,
      List.filter_append]
    by_cases h : emp_label a = label
    · rw [if_pos h.symm]
      have hf : List.filter (fun e => emp_label e == label) [a] = [a] := by
        simp [List.filter_cons, h]
      rw [hf, List.getLast?_concat]
      rfl
    · rw [if_neg (fun hl => h hl.symm)]
      have hf : List.filter (fun e => emp_label e == label) [a] = [] := by
        simp [List.filter_cons, h]
      rw [hf, List.append_nil, ih]

theorem mem_keys_dict_insert (k : String) (v : Nat) (d : List (String × Nat)) (x : String) :
    x ∈ (dict_insert k v d).map Prod.fst ↔ x ∈ d.map Prod.fst ∨ x = k := by
  induction d with
  | nil => simp [dict_insert]
  | cons kv rest ih =>
    obtain ⟨k0, v0⟩ := kv
    rw [dict_insert_cons]
    by_cases hk : k0 = k
    · subst hk
      rw [if_pos rfl]
      simp only [List.map_cons, List.mem_cons]
      constructor
      · rintro (h | h)
        · exact Or.inl (Or.inl h)
        · exact Or.inl (Or.inr h)
      · rintro ((h | h) | h)
        · exact Or.inl h
        · exact Or.inr h
        · exact Or.inl (h ▸ rfl)
    · rw [if_neg hk]
      simp only [List.map_cons, List.mem_cons, ih]
      tauto

theorem keys_dict_insert_nodup (k : String) (v : Nat) (d : List (String × Nat))
    (h : (d.map Prod.fst).Nodup) : ((dict_insert k v d).map Prod.fst).Nodup := by
  induction d with
  | nil => simp [dict_insert]
  | cons kv rest ih =>
    obtain ⟨k0, v0⟩ := kv
    simp only [List.map_cons, List.nodup_cons] at h
    rw [dict_insert_cons]
    by_cases hk : k0 = k
    · rw [if_pos hk]
      simp only [List.map_cons, List.nodup_cons]
      exact h
    · rw [if_neg hk]
      simp only [List.map_cons, List.nodup_cons]
      refine ⟨?_, ih h.2⟩
      intro hmem
      rcases (mem_keys_dict_insert k v rest k0).mp hmem with hm | hm
      · exact h.1 hm
      · exact hk hm

theorem emp_options_keys_nodup (rows : List Employee) :
    ((emp_options rows).map Prod.fst).Nodup := by
  suffices h : ∀ d : List (String × Nat), (d.map Prod.fst).Nodup →
      ((rows.foldl (fun acc e => dict_insert (emp_label e) e.id acc) d).map Prod.fst).Nodup by
    exact h [] (by simp)
  induction rows with
  | nil => intro d hd; exact hd
  | cons e rest ih =>
    intro d hd
    exact ih (dict_insert (emp_label e) e.id d) (keys_dict_insert_nodup _ _ _ hd)

theorem getLast_id_max (l : List Employee) (f : Employee)
    (hp : (l.map Employee.id).Pairwise (· < ·)) (hl : l.getLast? = some f) :
    ∀ x ∈ l, x.id ≤ f.id := by
  induction l with
  | nil => simp at hl
  | cons a t ih =>
    intro x hx
    cases t with
    | nil =>
      have ha : a = f := by simpa using hl
      have hxa : x = a := by simpa using hx
      subst ha
      subst hxa
      exact Nat.le_refl _
    | cons b t2 =>
      rw [List.getLast?_cons_cons] at hl
      simp only [List.map_cons, List.pairwise_cons] at hp
      rcases List.mem_cons.mp hx with rfl | hx2
      · have hf : f ∈ b :: t2 := List.mem_of_mem_getLast? hl
        have := hp.1 f.id (List.mem_map.mpr ⟨f, hf, rfl⟩)
        omega
      · exact ih (by simpa using hp.2) hl x hx2

/-- C9: in the Remove flow, duplicate composite labels collapse to a single
selector option (the dict keys are distinct), the label resolves to the id
of the last row encountered — under the storage order of a well-formed
store, the greatest id bearing that label — and confirming deletion removes
exactly that record. -/
theorem remove_flow_duplicate_labels (s : Store) (label : String)
    (hsorted : (idsOf s).Pairwise (· < ·))
    (hex : ∃ e ∈ s.rows, emp_label e = label) :
    ∃ i, List.lookup label (emp_options (get_all_employees s)) = some i
      ∧ ((emp_options (get_all_employees s)).map Prod.fst).Nodup
      ∧ (∃ e ∈ s.rows, e.id = i ∧ emp_label e = label)
      ∧ (∀ e ∈ s.rows, emp_label e = label → e.id ≤ i)
      ∧ (delete_row s i).rows.length + 1 = s.rows.length
      ∧ (∀ e ∈ (delete_row s i).rows, e.id ≠ i)
      ∧ (∀ e ∈ s.rows, e.id ≠ i → e ∈ (delete_row s i).rows) := by
  obtain ⟨e0, he0, hl0⟩ := hex
  have hFne : s.rows.filter (fun e => emp_label e == label) ≠ [] := by
    intro h
    have : e0 ∈ s.rows.filter (fun e => emp_label e == label) :=
      List.mem_filter.mpr ⟨he0, by simpa using hl0⟩
    rw [h] at this
    simp at this
  obtain ⟨f, hf⟩ : ∃ f, (s.rows.filter (fun e => emp_label e == label)).getLast? = some f := by
    cases hF2 : (s.rows.filter (fun e => emp_label e == label)).getLast? with
    | none => exact absurd (List.getLast?_eq_none_iff.mp hF2) hFne
    | some f => exact ⟨f, rfl⟩
  have hfmem : f ∈ s.rows.filter (fun e => emp_label e == label) :=
    List.mem_of_mem_getLast? hf
  have hfrow : f ∈ s.rows := (List.mem_filter.mp hfmem).1
  have hflab : emp_label f = label := by simpa using (List.mem_filter.mp hfmem).2
  have hlook : List.lookup label (emp_options (get_all_employees s)) = some f.id := by
    rw [show get_all_employees s = s.rows from rfl, emp_options,
      lookup_foldl_options, hf]
    rfl
  refine ⟨f.id, hlook, emp_options_keys_nodup _, ⟨f, hfrow, rfl, hflab⟩, ?_, ?_, ?_, ?_⟩
  · intro e he hel
    have heF : e ∈ s.rows.filter (fun x => emp_label x == label) :=
      List.mem_filter.mpr ⟨he, by simpa using hel⟩
    have hpF : ((s.rows.filter (fun x => emp_label x == label)).map Employee.id).Pairwise
        (· < ·) :=
      List.Pairwise.sublist ((List.filter_sublist s.rows).map Employee.id) hsorted
    exact getLast_id_max _ f hpF hf e heF
  · exact length_filter_ne s.rows f.id (hsorted.imp (fun h => Nat.ne_of_lt h))
      (List.mem_map.mpr ⟨f, hfrow, rfl⟩)
  · intro e he
    have := (List.mem_filter.mp he).2
    simpa using this
  · intro e he hne
    exact List.mem_filter.mpr ⟨he, by simpa using hne⟩

/-- C9 witness: two rows labelled "a | d": the selector resolves the label
to id 2 and deletion removes exactly that row. -/
theorem remove_flow_duplicate_labels_witness :
    (idsOf dupStore).Pairwise (· < ·)
    ∧ (∃ e ∈ dupStore.rows, emp_label e = "a | d")
    ∧ ∃ i, List.lookup "a | d" (emp_options (get_all_employees dupStore)) = some i
      ∧ ((emp_options (get_all_employees dupStore)).map Prod.fst).Nodup
      ∧ (∃ e ∈ dupStore.rows, e.id = i ∧ emp_label e = "a | d")
      ∧ (∀ e ∈ dupStore.rows, emp_label e = "a | d" → e.id ≤ i)
      ∧ (delete_row dupStore i).rows.length + 1 = dupStore.rows.length
      ∧ (∀ e ∈ (delete_row dupStore i).rows, e.id ≠ i)
      ∧ (∀ e ∈ dupStore.rows, e.id ≠ i → e ∈ (delete_row dupStore i).rows) :=
  ⟨by decide, by decide,
    remove_flow_duplicate_labels dupStore "a | d" (by decide) (by decide)⟩

/-! ## The Public-View filter -/

theorem matchHere_no_dot (pat : List Char) (hdot : '.' ∉ pat) :
    ∀ s : List Char, (matchHere pat s = true ↔
      List.IsPrefix (pat.map Char.toLower) (s.map Char.toLower)) := by
  induction pat with
  | nil =>
    intro s
    simp [matchHere]
  | cons p ps ih =>
    intro s
    have hp : p ≠ '.' := fun h => hdot (h ▸ List.mem_cons_self p ps)
    have hdot2 : '.' ∉ ps := fun h => hdot (List.mem_cons_of_mem _ h)
    cases s with
    | nil =>
      simp [matchHere]
    | cons c cs =>
      simp only [matchHere, List.map_cons, List.cons_prefix_cons,
        Bool.and_eq_true, Bool.or_eq_true, beq_iff_eq]
      rw [ih hdot2 cs]
      constructor
      · rintro ⟨h1 | h1, h2⟩
        · exact absurd h1 hp
        · exact ⟨h1, h2⟩
      · rintro ⟨h1, h2⟩
        exact ⟨Or.inr h1, h2⟩

theorem reSearch_iff_suffix (pat : List Char) :
    ∀ s : List Char, (reSearch pat s = true ↔
      ∃ t, List.IsSuffix t s ∧ matchHere pat t = true) := by
  intro s
  induction s with
  | nil =>
    simp only [reSearch]
    constructor
    · intro h
      exact ⟨[], List.suffix_rfl, h⟩
    · rintro ⟨t, ht, hm⟩
      have : t = [] := List.suffix_nil.mp ht
      subst this
      exact hm
  | cons c cs ih =>
    simp only [reSearch, Bool.or_eq_true]
    rw [ih]
    constructor
    · rintro (h | ⟨t, ht, hm⟩)
      · exact ⟨c :: cs, List.suffix_rfl, h⟩
      · exact ⟨t, ht.trans (List.suffix_cons c cs), hm⟩
    · rintro ⟨t, ht, hm⟩
      rcases List.suffix_cons_iff.mp ht with rfl | h2
      · exact Or.inl hm
      · exact Or.inr ⟨t, h2, hm⟩

theorem suffix_map_exists (f : Char → Char) (l t2 : List Char)
    (h : List.IsSuffix t2 (l.map f)) : ∃ t, List.IsSuffix t l ∧ t.map f = t2 := by
  obtain ⟨u, hu⟩ := h
  obtain ⟨l1, l2, hl, _, hmap2⟩ := List.map_eq_append_iff.mp hu.symm
  exact ⟨l2, ⟨l1, hl.symm⟩, hmap2⟩

theorem str_contains_eq_ci_substring (q s : String) (hdot : '.' ∉ q.toList) :
    str_contains q s = ci_substring q s := by
  have h1 : str_contains q s = true ↔
      List.IsInfix (q.toList.map Char.toLower) (s.toList.map Char.toLower) := by
    rw [str_contains, reSearch_iff_suffix]
    constructor
    · rintro ⟨t, ht, hm⟩
      exact List.infix_iff_prefix_suffix.mpr
        ⟨t.map Char.toLower, (matchHere_no_dot _ hdot t).mp hm, ht.map _⟩
    · intro h
      obtain ⟨t2, hpre, hsuf⟩ := List.infix_iff_prefix_suffix.mp h
      obtain ⟨t, hts, rfl⟩ := suffix_map_exists Char.toLower s.toList t2 hsuf
      exact ⟨t, hts, (matchHere_no_dot _ hdot t).mpr hpre⟩
  have h2 : ci_substring q s = true ↔
      List.IsInfix (q.toList.map Char.toLower) (s.toList.map Char.toLower) := by
    simp [ci_substring]
  cases hc : ci_substring q s with
  | true => exact h1.mpr (h2.mp hc)
  | false =>
    cases hs : str_contains q s with
    | true => exact absurd (h2.mpr (h1.mp hs)) (by simp [hc])
    | false => rfl

/-- C4 amended: the filter treats the query as a case-insensitive regular
expression (pandas str.contains defaults to regex matching); for queries
containing no regex metacharacter it keeps exactly the records whose name
or domain contains the query as a case-insensitive substring, and the
empty query passes every record. -/
theorem filter_substring_for_literal_queries (q : String) (rows : List Employee)
    (hmeta : ∀ c ∈ q.toList, c ∉ METACHARS) :
    filter_employees q rows =
      if q = "" then rows
      else rows.filter (fun e => ci_substring q e.name || ci_substring q e.domain) := by
  have hdot : '.' ∉ q.toList := fun h => hmeta '.' h (by simp [METACHARS])
  by_cases hq : q = ""
  · simp [filter_employees, hq]
  · rw [filter_employees, if_neg (by simpa using hq), if_neg hq]
    apply List.filter_congr
    intro e _
    rw [str_contains_eq_ci_substring _ _ hdot, str_contains_eq_ci_substring _ _ hdot]

/-- C4 amended witness: the spec example, query "mark" against a record
whose domain is "Marketing". -/
theorem filter_substring_for_literal_queries_witness :
    (∀ c ∈ ("mark" : String).toList, c ∉ METACHARS)
    ∧ filter_employees "mark" [mkEmp 1 "John" "j@x" "1" "Marketing" "" ""]
        = if ("mark" : String) = "" then [mkEmp 1 "John" "j@x" "1" "Marketing" "" ""]
          else (List.filter
            (fun e => ci_substring "mark" e.name || ci_substring "mark" e.domain)
            [mkEmp 1 "John" "j@x" "1" "Marketing" "" ""]) :=
  ⟨by decide,
    filter_substring_for_literal_queries "mark" [mkEmp 1 "John" "j@x" "1" "Marketing" "" ""]
      (by decide)⟩

/-- C4 counterexample: the query is a regex, not a literal substring: the
query "a.b" keeps the record named "axb" although "a.b" is not a
case-insensitive substring of its name "axb" or its domain "HR". -/
theorem filter_regex_counterexample :
    filter_employees "a.b" [mkEmp 1 "axb" "e" "p" "HR" "l" "ph"]
        = [mkEmp 1 "axb" "e" "p" "HR" "l" "ph"]
    ∧ ci_substring "a.b" "axb" = false
    ∧ ci_substring "a.b" "HR" = false := by
  refine ⟨?_, by decide, by decide⟩
  decide

/-! ## Photo save-path safety -/

theorem str_toList_append (s t : String) : (s ++ t).toList = s.toList ++ t.toList :=
  String.data_append s t

theorem alnum_ne_slash (c : Char) (h : (c.isAlpha || c.isDigit) = true) : c ≠ '/' := by
  intro heq
  subst heq
  exact absurd h (by decide)

theorem safe_name_alnum (name : String) :
    ∀ c ∈ (safe_name name).toList, (c.isAlpha || c.isDigit) = true := by
  intro c hc
  have h1 : (safe_name name).toList
      = ((name.toList.filter (fun c => c.isAlpha || c.isDigit)).reverse.dropWhile
          pyIsSpace).reverse := rfl
  rw [h1, List.mem_reverse] at hc
  have hc2 := (List.dropWhile_sublist pyIsSpace).subset hc
  rw [List.mem_reverse] at hc2
  exact (List.mem_filter.mp hc2).2

theorem photo_filename_toList (name phone ext : String) :
    (photo_filename name phone ext).toList
      = (safe_name name).toList ++ ['_'] ++ phone.toList ++ ['.'] ++ ext.toList := by
  show ((((safe_name name ++ "_") ++ phone) ++ ".") ++ ext).toList = _
  rw [str_toList_append, str_toList_append, str_toList_append, str_toList_append]
  rfl

theorem photo_stem_toList (name phone : String) :
    (photo_stem name phone).toList
      = (safe_name name).toList ++ ['_'] ++ phone.toList := by
  show ((safe_name name ++ "_") ++ phone).toList = _
  rw [str_toList_append, str_toList_append]
  rfl

theorem stem_alnum_of_alnum_phone (name phone : String)
    (hphone : ∀ c ∈ phone.toList, (c.isAlpha || c.isDigit) = true) :
    stem_alnum_sep (photo_stem name phone) = true := by
  unfold stem_alnum_sep
  rw [List.all_eq_true]
  intro c hc
  rw [photo_stem_toList] at hc
  rcases List.mem_append.mp hc with hc | hc
  · rcases List.mem_append.mp hc with hc | hc
    · have h := safe_name_alnum name c hc
      simp only [Bool.or_eq_true] at h ⊢
      exact Or.inl h
    · simp only [List.mem_singleton] at hc
      subst hc
      decide
  · have h := hphone c hc
    simp only [Bool.or_eq_true] at h ⊢
    exact Or.inl h

theorem fname_inside_of_alnum (name phone ext : String)
    (hphone : ∀ c ∈ phone.toList, (c.isAlpha || c.isDigit) = true)
    (hext : ∀ c ∈ ext.toList, (c.isAlpha || c.isDigit) = true) :
    fname_inside (photo_filename name phone ext) = true := by
  have hmem : '_' ∈ (photo_filename name phone ext).toList := by
    rw [photo_filename_toList]
    simp
  have hchars : ∀ c ∈ (photo_filename name phone ext).toList, c ≠ '/' := by
    intro c hc
    rw [photo_filename_toList] at hc
    rcases List.mem_append.mp hc with hc | hc
    · rcases List.mem_append.mp hc with hc | hc
      · rcases List.mem_append.mp hc with hc | hc
        · rcases List.mem_append.mp hc with hc | hc
          · exact alnum_ne_slash c (safe_name_alnum name c hc)
          · simp only [List.mem_singleton] at hc
            subst hc
            decide
        · exact alnum_ne_slash c (hphone c hc)
      · simp only [List.mem_singleton] at hc
        subst hc
        decide
    · exact alnum_ne_slash c (hext c hc)
  have hne2 : photo_filename name phone ext ≠ ".." := by
    intro h
    rw [h] at hmem
    exact absurd hmem (by decide)
  have hne1 : photo_filename name phone ext ≠ "." := by
    intro h
    rw [h] at hmem
    exact absurd hmem (by decide)
  unfold fname_inside
  rw [Bool.and_eq_true, Bool.and_eq_true]
  refine ⟨⟨?_, ?_⟩, ?_⟩
  · rw [List.all_eq_true]
    intro c hc
    simpa using hchars c hc
  · simpa using hne2
  · simpa using hne1

/-- C5 amended: the Add flow sanitizes only the name component of the save
path; the phone and the uploaded extension are embedded verbatim.  The
sanitized name is always alphanumeric-only, and whenever the phone and the
extension consist of alphanumeric characters, the stem is alphanumeric plus
the fixed separator and the saved file name stays inside the image
folder. -/
theorem photo_path_safe_for_alnum_phone (w : WriteOracle) (s : Store)
    (name email phone domain linkedin : String) (ph : Photo)
    (hname : name ≠ "") (hemail : email ≠ "")
    (hphone : ∀ c ∈ phone.toList, (c.isAlpha || c.isDigit) = true)
    (hext : ∀ c ∈ (file_ext ph.name).toList, (c.isAlpha || c.isDigit) = true)
    (hw : w.writeResult (save_path name phone (file_ext ph.name)) = none) :
    add_flow w s name email phone domain linkedin (some ph)
        = Except.ok (AddOutcome.accepted
            (add_employee s name email phone domain linkedin
              (save_path name phone (file_ext ph.name)))
            (save_path name phone (file_ext ph.name)))
      ∧ save_path name phone (file_ext ph.name)
          = IMAGE_FOLDER ++ "/" ++ photo_filename name phone (file_ext ph.name)
      ∧ (∀ c ∈ (safe_name name).toList, (c.isAlpha || c.isDigit) = true)
      ∧ stem_alnum_sep (photo_stem name phone) = true
      ∧ fname_inside (photo_filename name phone (file_ext ph.name)) = true := by
  refine ⟨by simp [add_flow, hname, hemail, hw], rfl, safe_name_alnum name, ?_, ?_⟩
  · exact stem_alnum_of_alnum_phone name phone hphone
  · exact fname_inside_of_alnum name phone (file_ext ph.name) hphone hext

/-- C5 amended witness: a concrete submission with alphanumeric phone in
the default flat-folder environment. -/
theorem photo_path_safe_for_alnum_phone_witness :
    ("Ann B" : String) ≠ "" ∧ ("a@x" : String) ≠ ""
    ∧ (∀ c ∈ ("5550100" : String).toList, (c.isAlpha || c.isDigit) = true)
    ∧ (∀ c ∈ (file_ext "face.png").toList, (c.isAlpha || c.isDigit) = true)
    ∧ writeFlatFolder.writeResult (save_path "Ann B" "5550100" (file_ext "face.png")) = none
    ∧ (add_flow writeFlatFolder sampleStore "Ann B" "a@x" "5550100" "HR" ""
          (some { name := "face.png", buffer := [7] })
          = Except.ok (AddOutcome.accepted
              (add_employee sampleStore "Ann B" "a@x" "5550100" "HR" ""
                (save_path "Ann B" "5550100" (file_ext "face.png")))
              (save_path "Ann B" "5550100" (file_ext "face.png")))
        ∧ save_path "Ann B" "5550100" (file_ext "face.png")
            = IMAGE_FOLDER ++ "/" ++ photo_filename "Ann B" "5550100" (file_ext "face.png")
        ∧ (∀ c ∈ (safe_name "Ann B").toList, (c.isAlpha || c.isDigit) = true)
        ∧ stem_alnum_sep (photo_stem "Ann B" "5550100") = true
        ∧ fname_inside (photo_filename "Ann B" "5550100" (file_ext "face.png")) = true) :=
  ⟨by decide, by decide, by decide, by decide, by decide,
    photo_path_safe_for_alnum_phone writeFlatFolder sampleStore "Ann B" "a@x" "5550100"
      "HR" "" { name := "face.png", buffer := [7] }
      (by decide) (by decide) (by decide) (by decide) (by decide)⟩

/-- C5 counterexample: a submission whose phone is "x/y", in an
environment where that path happens to be writable (the subdirectory
exists, so the write succeeds): the submission is accepted, yet the stem
is not alphanumeric-plus-separator and the saved file name contains a path
separator, so the path escapes the image folder — the phone is not
sanitized. -/
theorem photo_path_counterexample :
    add_flow writeOk init_db "A" "a@x" "x/y" "" "" (some { name := "p.jpg", buffer := [] })
        = Except.ok (AddOutcome.accepted
            (add_employee init_db "A" "a@x" "x/y" "" "" "employee_photos/A_x/y.jpg")
            "employee_photos/A_x/y.jpg")
    ∧ stem_alnum_sep (photo_stem "A" "x/y") = false
    ∧ fname_inside (photo_filename "A" "x/y" (file_ext "p.jpg")) = false := by
  refine ⟨?_, by decide, by decide⟩
  rfl

/-- C10 witness: the amended theorem at a whitespace-only name and email
with a succeeding write: the check passes and the row is stored
verbatim. -/
theorem add_flow_truthiness_check_witness :
    (add_flow writeOk init_db " " "\t" "" "" "" (some { name := "p.jpg", buffer := [] })
          = Except.ok (AddOutcome.rejected "Name, Email, and Photo are required.")
        ↔ ((" " : String) != "" && ("\t" : String) != ""
            && (some { name := "p.jpg", buffer := [] } : Option Photo).isSome) = false)
      ∧ (∀ ph : Photo, (some { name := "p.jpg", buffer := [] } : Option Photo) = some ph →
          ((" " : String) != "" && ("\t" : String) != ""
            && (some { name := "p.jpg", buffer := [] } : Option Photo).isSome) = true →
          writeOk.writeResult (save_path " " "" (file_ext ph.name)) = none →
          ∃ path st, add_flow writeOk init_db " " "\t" "" "" ""
              (some { name := "p.jpg", buffer := [] })
              = Except.ok (AddOutcome.accepted st path)
            ∧ st.rows.getLast?
                = some (mkEmp init_db.nextId " " "\t" "" "" "" path)) :=
  add_flow_truthiness_check writeOk init_db " " "\t" "" "" ""
    (some { name := "p.jpg", buffer := [] })
